import Mathlib

/-!
Verification of the matching core of the Campus Connect backend
(src/app.py).  The Python source is shallowly embedded:

* Python floats are modelled as exact rationals (all constants of the
  scoring path, 0.6 / 0.4 / 0.05 / 100, are exact in the source and the
  similarity values are quotients of small naturals);
* Python's builtin round (round-half-to-even on the mathematical value)
  is modelled by pyRound;
* the JSON (de)serialisation used by the User.tags / User.interests
  accessors (json.loads / json.dumps with default options) is modelled
  by jparse / pyJsonDumps over the value type JVal.  The model covers
  the full grammar json.loads accepts: null, booleans, numbers
  (integer and float numerals, and the NaN / Infinity / -Infinity
  literals), strings with the simple and backslash-u escapes, arrays
  and objects.  Documented value-level approximations: float values
  are kept as exact decimal rationals rather than nearest IEEE-754
  doubles, and object values as key-value lists; the one coverage
  boundary is a lone-surrogate backslash-u escape, which Python keeps
  as an unpaired code unit that a Lean string cannot represent;
* Python's list.sort(key=..., reverse=True) is a stable descending
  sort; a stable sort's output is uniquely determined by the key order,
  so it is modelled by List.insertionSort with the reflexive
  "greater-or-equal score" relation, which is stable in the same sense;
* Python's slice results[:limit] (including negative limits) is
  modelled by pySliceTo.
-/

/-! ### JSON values (the shapes json.loads can return) -/

/-- The values json.loads can produce.  Python ints are jnum; Python
floats from fraction/exponent numerals are jfloat carrying the exact
decimal value (CPython stores the nearest IEEE-754 double, a value
detail no accessor observes); the non-finite floats parsed from the
NaN / Infinity / -Infinity literals (accepted by json.loads by
default) are jnan / jinf / jneginf; objects are key-value lists in
input order (a Python dict would keep the last duplicate key, a
detail no claim observes). -/
inductive JVal where
  | null : JVal
  | jbool : Bool → JVal
  | jnum : Int → JVal
  | jfloat : ℚ → JVal
  | jnan : JVal
  | jinf : JVal
  | jneginf : JVal
  | jstr : String → JVal
  | jarr : List JVal → JVal
  | jobj : List (String × JVal) → JVal
  deriving Repr

/-- Whitespace skipping of the JSON reader. -/
def skipWs : List Char → List Char
  | [] => []
  | c :: cs => if c = ' ' ∨ c = '\t' ∨ c = '\n' ∨ c = '\r' then skipWs cs else c :: cs

/-- Decode one string-escape character (the simple JSON escapes). -/
def unescape (e : Char) : Option Char :=
  if e = '"' then some '"'
  else if e = '\\' then some '\\'
  else if e = '/' then some '/'
  else if e = 'n' then some '\n'
  else if e = 't' then some '\t'
  else if e = 'r' then some '\r'
  else if e = 'b' then some (Char.ofNat 8)
  else if e = 'f' then some (Char.ofNat 12)
  else none

/-- Hexadecimal digits as the backslash-u escape accepts them. -/
def isHexDigit (c : Char) : Bool :=
  c.isDigit || ('a' ≤ c && c ≤ 'f') || ('A' ≤ c && c ≤ 'F')

/-- Value of one hexadecimal digit. -/
def hexVal (c : Char) : Nat :=
  if c.isDigit then c.toNat - 48
  else if 'A' ≤ c && c ≤ 'F' then c.toNat - 55
  else c.toNat - 87

/-- Scan the body of a JSON string literal (after the opening quote)
into code units and the remaining input.  As json.loads (strict mode,
the default): the simple and backslash-u escapes are decoded and raw
control characters are rejected.  Fuel only bounds the recursion and
is consumed together with at least one input character. -/
def parseStrUnits : Nat → List Char → Option (List Nat × List Char)
  | 0, _ => none
  | Nat.succ fuel, cs =>
    match cs with
    | [] => none
    | c :: cs2 =>
      if c = '"' then some ([], cs2)
      else if c = '\\' then
        match cs2 with
        | [] => none
        | e :: cs3 =>
          if e = 'u' then
            match cs3 with
            | c1 :: c2 :: c3 :: c4 :: cs4 =>
              if isHexDigit c1 && isHexDigit c2 && isHexDigit c3 && isHexDigit c4 then
                match parseStrUnits fuel cs4 with
                | some (us, rest) =>
                  some ((((hexVal c1 * 16 + hexVal c2) * 16 + hexVal c3) * 16 + hexVal c4)
                    :: us, rest)
                | none => none
              else none
            | _ => none
          else
            match unescape e with
            | some d =>
              match parseStrUnits fuel cs3 with
              | some (us, rest) => some (d.toNat :: us, rest)
              | none => none
            | none => none
      else if c.toNat < 32 then none
      else
        match parseStrUnits fuel cs2 with
        | some (us, rest) => some (c.toNat :: us, rest)
        | none => none

/-- Turn the decoded code units into characters: an escaped high
surrogate must be followed by an escaped low surrogate and the pair
combines into one character, as the json.loads scanner does.  A lone
surrogate - which json.loads keeps as an unpaired code unit in the
Python str - has no counterpart in a Lean string and is read as a
failure; such stored text stays outside the model.  Units that are not
surrogates are below the surrogate range or above it, so Char.ofNat is
exact on them. -/
def combineUnits : List Nat → Option (List Char)
  | [] => some []
  | n :: ns =>
    if 55296 ≤ n ∧ n ≤ 56319 then
      match ns with
      | m :: ns2 =>
        if 56320 ≤ m ∧ m ≤ 57343 then
          match combineUnits ns2 with
          | some body =>
            some (Char.ofNat (65536 + (n - 55296) * 1024 + (m - 56320)) :: body)
          | none => none
        else none
      | [] => none
    else if 56320 ≤ n ∧ n ≤ 57343 then none
    else
      match combineUnits ns with
      | some body => some (Char.ofNat n :: body)
      | none => none

/-- Read the body of a JSON string literal (after the opening quote),
returning the decoded characters and the remaining input: scan the
code units, then combine surrogate pairs.  The fuel bound is one more
than the input length, which the scanner can never exhaust since it
consumes at least one character per unit. -/
def parseStrChars (cs : List Char) : Option (List Char × List Char) :=
  match parseStrUnits (cs.length + 1) cs with
  | some (us, rest) =>
    match combineUnits us with
    | some body => some (body, rest)
    | none => none
  | none => none

/-- Digits of a decimal numeral to its value. -/
def digitsToNat (ds : List Char) : Nat :=
  ds.foldl (fun n c => n * 10 + (c.toNat - 48)) 0

/-- The integer part of a JSON numeral: a lone zero, or a nonzero
digit followed by digits (after a leading zero the grammar stops, so
text like 05 fails later at the trailing-input check, as json.loads
rejects it). -/
def parseIntDigits : List Char → Option (List Char × List Char)
  | [] => none
  | c :: rest =>
    if c = '0' then some (['0'], rest)
    else if c.isDigit then
      let p := (c :: rest).span Char.isDigit
      some (p.1, p.2)
    else none

/-- A non-empty digit run and its value. -/
def expNat (cs : List Char) : Option (Nat × List Char) :=
  let p := cs.span Char.isDigit
  match p.1 with
  | [] => none
  | ds => some (digitsToNat ds, p.2)

/-- The signed digits of an exponent. -/
def expDigits : List Char → Option (Int × List Char)
  | '+' :: r =>
    match expNat r with
    | some (n, rest) => some ((n : Int), rest)
    | none => none
  | '-' :: r =>
    match expNat r with
    | some (n, rest) => some (-(n : Int), rest)
    | none => none
  | r =>
    match expNat r with
    | some (n, rest) => some ((n : Int), rest)
    | none => none

/-- An exponent part e/E with optional sign; when absent or malformed
nothing is consumed (the numeral ends before it, as in the JSON number
grammar json.loads uses). -/
def parseExpPart : List Char → Option (Int × List Char)
  | 'e' :: rest => expDigits rest
  | 'E' :: rest => expDigits rest
  | _ => none

/-- The float value of a numeral with integer digits, fraction digits
and a decimal exponent: its exact decimal value (CPython would round
it to the nearest IEEE-754 double, or overflow to an infinity - a
value detail no accessor observes). -/
def mkFloat (ints fds : List Char) (e : Int) : JVal :=
  JVal.jfloat (((digitsToNat (ints ++ fds) : ℚ) / (10 : ℚ) ^ fds.length) * (10 : ℚ) ^ e)

/-- One unsigned JSON numeral: integer part, optional fraction,
optional exponent; an integer-only numeral is a Python int, any other
a Python float. -/
def parseNumBody (cs : List Char) : Option (JVal × List Char) :=
  match parseIntDigits cs with
  | none => none
  | some (ints, r1) =>
    match r1 with
    | '.' :: r2 =>
      match (r2.span Char.isDigit).1 with
      | [] => some (JVal.jnum (digitsToNat ints : Int), r1)
      | fds =>
        match parseExpPart (r2.span Char.isDigit).2 with
        | some (e, r4) => some (mkFloat ints fds e, r4)
        | none => some (mkFloat ints fds 0, (r2.span Char.isDigit).2)
    | _ =>
      match parseExpPart r1 with
      | some (e, r2) => some (mkFloat ints [] e, r2)
      | none => some (JVal.jnum (digitsToNat ints : Int), r1)

/-- Negation of a parsed numeral, for the leading minus sign. -/
def negNum : JVal → JVal
  | JVal.jnum n => JVal.jnum (-n)
  | JVal.jfloat q => JVal.jfloat (-q)
  | v => v

/-- Read one non-composite JSON value starting with the character c:
the null / true / false / NaN / Infinity / -Infinity literals, a
string literal, or a signed numeral. -/
def parseScalarTok (c : Char) (rest : List Char) : Option (JVal × List Char) :=
  if c = 'n' then
    match rest with
    | 'u' :: 'l' :: 'l' :: r => some (JVal.null, r)
    | _ => none
  else if c = 't' then
    match rest with
    | 'r' :: 'u' :: 'e' :: r => some (JVal.jbool true, r)
    | _ => none
  else if c = 'f' then
    match rest with
    | 'a' :: 'l' :: 's' :: 'e' :: r => some (JVal.jbool false, r)
    | _ => none
  else if c = '"' then
    match parseStrChars rest with
    | some (body, r) => some (JVal.jstr (String.mk body), r)
    | none => none
  else if c = '-' then
    match rest with
    | 'I' :: 'n' :: 'f' :: 'i' :: 'n' :: 'i' :: 't' :: 'y' :: r => some (JVal.jneginf, r)
    | _ =>
      match parseNumBody rest with
      | some (v, r) => some (negNum v, r)
      | none => none
  else if c.isDigit then parseNumBody (c :: rest)
  else if c = 'N' then
    match rest with
    | 'a' :: 'N' :: r => some (JVal.jnan, r)
    | _ => none
  else if c = 'I' then
    match rest with
    | 'n' :: 'f' :: 'i' :: 'n' :: 'i' :: 't' :: 'y' :: r => some (JVal.jinf, r)
    | _ => none
  else none

mutual

/-- Read one JSON value; fuel bounds the recursion depth and is consumed
only after consuming at least one input character.  Arrays and objects
recurse; everything else is a scalar token. -/
def parseVal : Nat → List Char → Option (JVal × List Char)
  | 0, _ => none
  | Nat.succ fuel, cs =>
    match skipWs cs with
    | [] => none
    | c :: rest =>
      if c = '[' then
        match skipWs rest with
        | ']' :: r => some (JVal.jarr [], r)
        | cs1 =>
          match parseElems fuel cs1 with
          | some (vs, r) => some (JVal.jarr vs, r)
          | none => none
      else if c = '\x7b' then
        match skipWs rest with
        | '\x7d' :: r => some (JVal.jobj [], r)
        | cs1 =>
          match parseMembers fuel cs1 with
          | some (ms, r) => some (JVal.jobj ms, r)
          | none => none
      else parseScalarTok c rest

/-- Read the comma-separated elements of a JSON array up to and
including the closing bracket. -/
def parseElems : Nat → List Char → Option (List JVal × List Char)
  | 0, _ => none
  | Nat.succ fuel, cs =>
    match parseVal fuel cs with
    | none => none
    | some (v, rem) =>
      match skipWs rem with
      | ',' :: r =>
        match parseElems fuel r with
        | some (vs, rem2) => some (v :: vs, rem2)
        | none => none
      | ']' :: r => some ([v], r)
      | _ => none

/-- Read the comma-separated members of a JSON object up to and
including the closing brace: each member is a string key, a colon and
a value, with whitespace allowed between all tokens. -/
def parseMembers : Nat → List Char → Option (List (String × JVal) × List Char)
  | 0, _ => none
  | Nat.succ fuel, cs =>
    match skipWs cs with
    | [] => none
    | c :: rest =>
      if c = '"' then
        match parseStrChars rest with
        | none => none
        | some (key, r1) =>
          match skipWs r1 with
          | [] => none
          | c2 :: r2 =>
            if c2 = ':' then
              match parseVal fuel r2 with
              | none => none
              | some (v, r3) =>
                match skipWs r3 with
                | [] => none
                | c3 :: r4 =>
                  if c3 = ',' then
                    match parseMembers fuel r4 with
                    | some (ms, r5) => some ((String.mk key, v) :: ms, r5)
                    | none => none
                  else if c3 = '\x7d' then some ([(String.mk key, v)], r4)
                  else none
            else none
      else none

end

/-- Model of json.loads: the whole input (up to trailing whitespace)
must be one JSON value. -/
def jparse (s : String) : Option JVal :=
  match parseVal (s.toList.length + 2) s.toList with
  | some (v, rem) => if skipWs rem = [] then some v else none
  | none => none

/-! ### json.dumps for lists of strings (default options) -/

/-- One hexadecimal digit (lower case), as json.dumps prints them. -/
def hexDig (n : Nat) : Char :=
  if n < 10 then Char.ofNat (48 + n) else Char.ofNat (97 + (n - 10))

/-- Four-digit hexadecimal rendering used by the \u escape. -/
def hex4 (n : Nat) : List Char :=
  [hexDig (n / 4096 % 16), hexDig (n / 256 % 16), hexDig (n / 16 % 16), hexDig (n % 16)]

/-- How json.dumps (ensure_ascii=True, the default) renders one
character inside a string literal. -/
def escapeChar (c : Char) : List Char :=
  if c = '"' then ['\\', '"']
  else if c = '\\' then ['\\', '\\']
  else if c = '\n' then ['\\', 'n']
  else if c = '\t' then ['\\', 't']
  else if c = '\r' then ['\\', 'r']
  else if c = Char.ofNat 8 then ['\\', 'b']
  else if c = Char.ofNat 12 then ['\\', 'f']
  else if c.toNat < 32 ∨ 127 ≤ c.toNat then
    if c.toNat < 65536 then '\\' :: 'u' :: hex4 c.toNat
    else
      '\\' :: 'u' :: hex4 (55296 + (c.toNat - 65536) / 1024) ++
        '\\' :: 'u' :: hex4 (56320 + (c.toNat - 65536) % 1024)
  else [c]

/-- Characters of the string literal json.dumps emits for s. -/
def dumpStrChars (s : String) : List Char :=
  '"' :: (s.toList.foldr (fun c acc => escapeChar c ++ acc) ['"'])

/-- Characters after the opening bracket of json.dumps of a list
(default separator is a comma followed by one space). -/
def dumpElemsChars : List String → List Char
  | [] => [']']
  | [s] => dumpStrChars s ++ [']']
  | s :: l => dumpStrChars s ++ ',' :: ' ' :: dumpElemsChars l

/-- Model of json.dumps on a list of strings with default options. -/
def pyJsonDumps (l : List String) : String :=
  String.mk ('[' :: dumpElemsChars l)

/-- Extract a list of strings from a JSON value, when it is exactly an
array of strings. -/
def asStringList : JVal → Option (List String)
  | JVal.jarr xs =>
    xs.foldr
      (fun x acc =>
        match x, acc with
        | JVal.jstr s, some l => some (s :: l)
        | _, _ => none)
      (some [])
  | _ => none

/-! ### The users table row (class User of src/app.py, lines 49-97) -/

structure User where
  id : Int
  name : String
  email : String
  password_hash : String
  year : Option String
  department : Option String
  bio : Option String
  tags_json : Option String
  interests_json : Option String
  personality : Option String
  deriving Repr

/-- Python truthiness guard s or "[]" applied to a nullable text
column. -/
def textOrEmptyList : Option String → String
  | none => "[]"
  | some s => if s = "" then "[]" else s

/-- The tags property (src/app.py lines 64-69): json.loads of the
stored text, with null/empty text read as "[]" and any parse failure
yielding the empty list. -/
def User.tags (u : User) : JVal :=
  match jparse (textOrEmptyList u.tags_json) with
  | some v => v
  | none => JVal.jarr []

/-- The interests property (src/app.py lines 75-80). -/
def User.interests (u : User) : JVal :=
  match jparse (textOrEmptyList u.interests_json) with
  | some v => v
  | none => JVal.jarr []

/-- The tags setter (src/app.py lines 71-73): tags_json becomes
json.dumps(v or []); a missing (None) value dumps as the empty list. -/
def setTags (u : User) (v : Option (List String)) : User :=
  { u with tags_json := some (pyJsonDumps (v.getD [])) }

/-- The interests setter (src/app.py lines 82-84). -/
def setInterests (u : User) (v : Option (List String)) : User :=
  { u with interests_json := some (pyJsonDumps (v.getD [])) }

/-! ### Scoring (src/app.py lines 106-126)

Scoring operates on well-typed profiles: the spec's Profile record,
i.e. a user whose tags/interests accessors yield lists of strings. -/

structure Profile where
  tags : List String
  interests : List String
  personality : Option String
  deriving Repr, DecidableEq

/-- str.lower modelled character by character (ASCII case folding, as
Lean's Char.toLower; the tags of the examples are ASCII). -/
def pyLower (s : String) : String :=
  String.mk (s.toList.map Char.toLower)

/-- The lowered set built by set(map(str.lower, a or [])). -/
def lowerSet (a : List String) : Finset String :=
  (a.map pyLower).toFinset

/-- jaccard_similarity (src/app.py lines 106-112): sa and sb are the
lowered sets, inter and union their intersection and union sizes. -/
def jaccard_similarity (a b : List String) : ℚ :=
  if lowerSet a = ∅ ∧ lowerSet b = ∅ then 0
  else if (lowerSet a ∪ lowerSet b).card = 0 then 0
  else ((lowerSet a ∩ lowerSet b).card : ℚ) / ((lowerSet a ∪ lowerSet b).card : ℚ)

/-- Python's builtin round on an exact value: round half to even. -/
def pyRound (q : ℚ) : ℤ :=
  if q - (⌊q⌋ : ℚ) < 1 / 2 then ⌊q⌋
  else if 1 / 2 < q - (⌊q⌋ : ℚ) then ⌊q⌋ + 1
  else if ⌊q⌋ % 2 = 0 then ⌊q⌋ else ⌊q⌋ + 1

/-- Python truthiness of the nullable personality column: None and the
empty string are falsy. -/
def pyTruthyStr : Option String → Bool
  | none => false
  | some s => ! (s = "")

/-- The personality bonus of src/app.py line 123. -/
def personality_bonus (u v : Profile) : ℚ :=
  if pyTruthyStr u.personality && pyTruthyStr v.personality &&
      (u.personality == v.personality) then 0.05 else 0.0

/-- match_score (src/app.py lines 115-126): the weighted sum is scaled
to 100, clamped at 100 and rounded with Python's builtin round. -/
def match_score (u v : Profile) : ℤ :=
  pyRound
    (min
      ((0.6 * jaccard_similarity u.tags v.tags +
          0.4 * jaccard_similarity u.interests v.interests +
          personality_bonus u v) * 100)
      100)

/-- The score exactly as the spec words it (spec section 4.2, steps
1-5): clamp the raw weighted sum at 1.0, then scale by 100 and round.
Presence of a personality label follows the source's truthiness test,
which claim C9 records (the empty string counts as absent). -/
def matchScoreSpec (u v : Profile) : ℤ :=
  pyRound
    (min
      (0.6 * jaccard_similarity u.tags v.tags +
        0.4 * jaccard_similarity u.interests v.interests +
        (if u.personality.getD "" ≠ "" ∧ v.personality.getD "" ≠ "" ∧
            u.personality = v.personality then (0.05 : ℚ) else 0.0))
      1 * 100)

/-! ### Ranking (src/app.py lines 240-249) -/

structure MatchResult where
  user : Profile
  score : ℤ
  deriving Repr, DecidableEq

/-- Descending-score comparison used by results.sort(key=score,
reverse=True); ties are related both ways, so a stable sort under this
relation keeps tied results in input order, as Python's sort does. -/
def scoreGe (x y : MatchResult) : Prop := y.score ≤ x.score

instance : DecidableRel scoreGe := fun x y => inferInstanceAs (Decidable (y.score ≤ x.score))

instance : IsTotal MatchResult scoreGe := ⟨fun x y => le_total y.score x.score⟩

instance : IsTrans MatchResult scoreGe := ⟨fun _ _ _ h1 h2 => le_trans h2 h1⟩

/-- Python's list slice l[:k], including the negative-k behaviour
(count from the end, clamped at zero). -/
def pySliceTo (l : List MatchResult) (k : Int) : List MatchResult :=
  l.take (if 0 ≤ k then k.toNat else ((l.length : Int) + k).toNat)

/-- The results list built by the loop of match_for_user (src/app.py
lines 241-247): one scored entry per candidate, in candidate order. -/
def scoreAll (me : Profile) (others : List Profile) : List MatchResult :=
  others.map fun o => ⟨o, match_score me o⟩

/-- The ranking core of match_for_user (src/app.py lines 240-249):
score every candidate, stable-sort by score descending, slice to the
limit. -/
def rank (me : Profile) (others : List Profile) (limit : Int) : List MatchResult :=
  pySliceTo (List.insertionSort scoreGe (scoreAll me others)) limit

/-! ### Plain characters (no JSON escaping involved) and witness data -/

/-- A character that json.dumps prints verbatim inside a string
literal: printable ASCII other than the quote and the backslash. -/
def plainChar (c : Char) : Bool :=
  32 ≤ c.toNat && c.toNat ≤ 126 && ! (c = '"') && ! (c = '\\')

/-- A string made only of plain characters. -/
def plainStr (s : String) : Bool :=
  s.toList.all plainChar

/-- A list of strings made only of plain characters. -/
def plainList (l : List String) : Bool :=
  l.all plainStr

/-- Sample profile: the registration example of the source header. -/
def profA : Profile :=
  ⟨["Study Buddy", "Sports Partner"], ["AI", "Football"], none⟩

/-- Sample candidate overlapping profA on half of each attribute
set. -/
def profB : Profile :=
  ⟨["Study Buddy"], ["Football"], none⟩

/-- Sample profile carrying an empty-string personality label. -/
def profE : Profile :=
  ⟨["x"], ["y"], some ""⟩

/-- A stored row with every nullable column absent. -/
def rowBase : User :=
  ⟨1, "A", "a@thapar.edu", "hash", none, none, none, none, none, none⟩

/-- A stored row whose tags and interests columns both hold valid JSON
that is not an array: the numeral 5. -/
def row55 : User :=
  { rowBase with tags_json := some "5", interests_json := some "5" }

attribute [local semireducible] Rat.mul Rat.inv Rat.add Rat.sub Rat.ofScientific

/-! ### Basic facts about the similarity coefficient and the rounding -/

theorem jaccard_nonneg (a b : List String) : 0 ≤ jaccard_similarity a b := by
  unfold jaccard_similarity
  split_ifs with h1 h2
  · exact le_refl 0
  · exact le_refl 0
  · exact div_nonneg (by positivity) (by positivity)

theorem jaccard_le_one (a b : List String) : jaccard_similarity a b ≤ 1 := by
  unfold jaccard_similarity
  split_ifs with h1 h2
  · exact zero_le_one
  · exact zero_le_one
  · have hcard : (lowerSet a ∩ lowerSet b).card ≤ (lowerSet a ∪ lowerSet b).card :=
      Finset.card_le_card (Finset.inter_subset_union)
    have hpos : (0 : ℚ) < ((lowerSet a ∪ lowerSet b).card : ℚ) := by
      have : 0 < (lowerSet a ∪ lowerSet b).card := Nat.pos_of_ne_zero h2
      exact_mod_cast this
    rw [div_le_one hpos]
    exact_mod_cast hcard

theorem personality_bonus_nonneg (u v : Profile) : 0 ≤ personality_bonus u v := by
  unfold personality_bonus
  split_ifs <;> norm_num

theorem pyRound_le {q : ℚ} {n : ℤ} (h : q ≤ (n : ℚ)) : pyRound q ≤ n := by
  have hf : ⌊q⌋ ≤ n := by
    have := Int.floor_mono h
    simpa using this
  have hq := Int.floor_le q
  unfold pyRound
  split_ifs with h1 h2 h3
  · exact hf
  · have hlt : (⌊q⌋ : ℚ) < (n : ℚ) := by linarith
    have : ⌊q⌋ < n := by exact_mod_cast hlt
    omega
  · exact hf
  · have hge : (1 : ℚ) / 2 ≤ q - (⌊q⌋ : ℚ) := not_lt.mp h1
    have hlt : (⌊q⌋ : ℚ) < (n : ℚ) := by linarith
    have : ⌊q⌋ < n := by exact_mod_cast hlt
    omega

theorem le_pyRound {q : ℚ} {n : ℤ} (h : (n : ℚ) ≤ q) : n ≤ pyRound q := by
  have hf : n ≤ ⌊q⌋ := by
    have := Int.floor_mono h
    simpa using this
  unfold pyRound
  split_ifs <;> omega

theorem min_mul_hundred (x : ℚ) : min (x * 100) 100 = min x 1 * 100 := by
  rcases le_total x 1 with h | h
  · rw [min_eq_left h, min_eq_left (by linarith)]
  · rw [min_eq_right h, min_eq_right (by linarith), one_mul]

theorem personality_bonus_as_spec (u v : Profile) :
    personality_bonus u v =
      if u.personality.getD "" ≠ "" ∧ v.personality.getD "" ≠ "" ∧
          u.personality = v.personality then (0.05 : ℚ) else 0.0 := by
  unfold personality_bonus pyTruthyStr
  cases hu : u.personality <;> cases hv : v.personality <;>
    simp [Option.getD, and_assoc]

/-! ### Claims about similarity and scoring -/

/-- Claim C3: jaccard_similarity lower-cases every element of both
inputs and returns the Jaccard coefficient of the resulting sets, a
value in the interval from 0 to 1; when both lowered sets are empty the
result is exactly 0 (an explicit special case). -/
theorem claim_C3 (a b : List String) :
    0 ≤ jaccard_similarity a b ∧ jaccard_similarity a b ≤ 1 ∧
      (lowerSet a = ∅ ∧ lowerSet b = ∅ → jaccard_similarity a b = 0) ∧
      (¬(lowerSet a = ∅ ∧ lowerSet b = ∅) →
        jaccard_similarity a b =
          ((lowerSet a ∩ lowerSet b).card : ℚ) /
            ((lowerSet a ∪ lowerSet b).card : ℚ)) := by
  refine ⟨jaccard_nonneg a b, jaccard_le_one a b, ?_, ?_⟩
  · intro h
    unfold jaccard_similarity
    rw [if_pos h]
  · intro h
    have hcard : (lowerSet a ∪ lowerSet b).card ≠ 0 := by
      intro hc
      have hu : lowerSet a ∪ lowerSet b = ∅ := Finset.card_eq_zero.mp hc
      exact h ⟨Finset.union_eq_empty.mp hu |>.1, Finset.union_eq_empty.mp hu |>.2⟩
    unfold jaccard_similarity
    rw [if_neg h, if_neg hcard]

/-- Witness for claim C3 at the concrete input consisting of the
singleton lists with the upper- and lower-case spelling of one tag. -/
theorem claim_C3_witness :
    jaccard_similarity ["A"] ["a"] =
      ((lowerSet ["A"] ∩ lowerSet ["a"]).card : ℚ) /
        ((lowerSet ["A"] ∪ lowerSet ["a"]).card : ℚ) :=
  (claim_C3 ["A"] ["a"]).2.2.2 (by decide)

/-- Claim C8: the similarity is symmetric in its two arguments. -/
theorem claim_C8 (a b : List String) :
    jaccard_similarity a b = jaccard_similarity b a := by
  unfold jaccard_similarity
  by_cases ha : lowerSet a = ∅ <;> by_cases hb : lowerSet b = ∅ <;>
    simp [ha, hb, Finset.union_comm, Finset.inter_comm]

/-- Claim C2: every match score is an integer between 0 and 100. -/
theorem claim_C2 (u v : Profile) :
    0 ≤ match_score u v ∧ match_score u v ≤ 100 := by
  constructor
  · apply le_pyRound
    have h1 : (0 : ℚ) ≤
        (0.6 * jaccard_similarity u.tags v.tags +
          0.4 * jaccard_similarity u.interests v.interests +
          personality_bonus u v) * 100 := by
      have ht := jaccard_nonneg u.tags v.tags
      have hi := jaccard_nonneg u.interests v.interests
      have hp := personality_bonus_nonneg u v
      nlinarith
    have h2 : ((0 : ℤ) : ℚ) ≤ min
        ((0.6 * jaccard_similarity u.tags v.tags +
          0.4 * jaccard_similarity u.interests v.interests +
          personality_bonus u v) * 100) 100 := by
      push_cast
      exact le_min h1 (by norm_num)
    exact h2
  · apply pyRound_le
    have : min
        ((0.6 * jaccard_similarity u.tags v.tags +
          0.4 * jaccard_similarity u.interests v.interests +
          personality_bonus u v) * 100) 100 ≤ ((100 : ℤ) : ℚ) := by
      push_cast
      exact min_le_right _ _
    exact this

/-- Claim C1: the match score is exactly the spec's formula: round the
clamped weighted similarity (clamp before rounding, the bonus granted
on exact string equality of two present personality labels) scaled to
100, with a consistent half-way rounding rule (here half-to-even, the
rule of Python's builtin round). -/
theorem claim_C1 (u v : Profile) : match_score u v = matchScoreSpec u v := by
  unfold match_score matchScoreSpec
  rw [personality_bonus_as_spec, min_mul_hundred]

/-- Claim C9: an empty-string personality is treated as absent; two
profiles that both carry the empty string as personality get bonus 0
and score exactly as if neither had a personality label. -/
theorem claim_C9 (u v : Profile)
    (hu : u.personality = some "") (hv : v.personality = some "") :
    personality_bonus u v = 0 ∧
      match_score u v =
        match_score { u with personality := none } { v with personality := none } := by
  have hb : personality_bonus u v = 0 := by
    unfold personality_bonus pyTruthyStr
    rw [hu, hv]
    norm_num
  have hb' : personality_bonus { u with personality := none }
      { v with personality := none } = 0 := by
    unfold personality_bonus pyTruthyStr
    norm_num
  refine ⟨hb, ?_⟩
  unfold match_score
  rw [hb, hb']

/-- Witness for claim C9 at a concrete pair of profiles whose
personality columns both hold the empty string. -/
theorem claim_C9_witness :
    personality_bonus profE profE = 0 ∧
      match_score profE profE =
        match_score { profE with personality := none }
          { profE with personality := none } :=
  claim_C9 profE profE rfl rfl

/-! ### Stability of the descending sort -/

theorem filter_orderedInsert (s : ℤ) (x : MatchResult) (m : List MatchResult) :
    ((m.orderedInsert scoreGe x).filter fun y => y.score == s) =
      if x.score == s then x :: (m.filter fun y => y.score == s)
      else m.filter fun y => y.score == s := by
  induction m with
  | nil =>
    by_cases hx : x.score = s <;> simp [hx]
  | cons y m ih =>
    by_cases h : scoreGe x y
    · rw [List.orderedInsert_of_le _ _ h]
      by_cases hx : x.score = s <;> simp [List.filter_cons, hx]
    · simp only [List.orderedInsert, if_neg h]
      have hxy : x.score < y.score := lt_of_not_le h
      by_cases hx : x.score = s
      · have hy : ¬(y.score = s) := by omega
        simp [List.filter_cons, hx, hy, ih]
      · simp [List.filter_cons, hx, ih]

theorem filter_insertionSort (s : ℤ) (l : List MatchResult) :
    ((List.insertionSort scoreGe l).filter fun y => y.score == s) =
      l.filter fun y => y.score == s := by
  induction l with
  | nil => rfl
  | cons x l ih =>
    simp only [List.insertionSort]
    rw [filter_orderedInsert]
    by_cases hx : x.score = s <;> simp [List.filter_cons, hx, ih]

theorem filter_take_front (p : MatchResult → Bool) (l : List MatchResult) (n : Nat) :
    ((l.take n).filter p) <+: (l.filter p) := by
  refine ⟨(l.drop n).filter p, ?_⟩
  rw [← List.filter_append, List.take_append_drop]

theorem length_scoreAll (me : Profile) (others : List Profile) :
    (scoreAll me others).length = others.length := by
  unfold scoreAll
  exact List.length_map _ _

/-! ### Claims about the ranking -/

/-- Claim C6: the returned match results are sorted by score in
non-increasing order, and results with equal scores keep the relative
order their candidates had in the input list (the returned run of any
fixed score is an initial segment of the scored input restricted to
that score). -/
theorem claim_C6 (me : Profile) (others : List Profile) (limit : Int) :
    List.Sorted scoreGe (rank me others limit) ∧
      ∀ s : ℤ, ((rank me others limit).filter fun m => m.score == s) <+:
        ((scoreAll me others).filter fun m => m.score == s) := by
  constructor
  · have hs : List.Sorted scoreGe (List.insertionSort scoreGe (scoreAll me others)) :=
      List.sorted_insertionSort scoreGe _
    unfold rank pySliceTo
    exact List.Pairwise.sublist (List.take_sublist _ _) hs
  · intro s
    unfold rank pySliceTo
    have h1 := filter_take_front (fun m => m.score == s)
      (List.insertionSort scoreGe (scoreAll me others))
      (if 0 ≤ limit then limit.toNat
        else (((List.insertionSort scoreGe (scoreAll me others)).length : Int) + limit).toNat)
    rw [filter_insertionSort] at h1
    exact h1

/-- Claim C7: for a positive limit the ranking returns exactly
min(limit, number of candidates) results; before truncation every
candidate yields exactly one scored result (the scored list is the
image of the candidate list and sorting only permutes it). -/
theorem claim_C7 (me : Profile) (others : List Profile) (limit : Int) (h : 0 < limit) :
    (rank me others limit).length = min limit.toNat others.length ∧
      (scoreAll me others).map MatchResult.user = others ∧
      (List.insertionSort scoreGe (scoreAll me others)).Perm (scoreAll me others) := by
  refine ⟨?_, ?_, List.perm_insertionSort scoreGe _⟩
  · unfold rank pySliceTo
    rw [if_pos (le_of_lt h), List.length_take, List.length_insertionSort, length_scoreAll]
  · unfold scoreAll
    rw [List.map_map]
    have hcomp : MatchResult.user ∘ (fun o => (⟨o, match_score me o⟩ : MatchResult)) = id := rfl
    rw [hcomp, List.map_id]

/-- Witness for claim C7 at one candidate and limit one. -/
theorem claim_C7_witness :
    (0 : Int) < 1 ∧
      ((rank profA [profB] 1).length = min (1 : Int).toNat [profB].length ∧
        (scoreAll profA [profB]).map MatchResult.user = [profB] ∧
        (List.insertionSort scoreGe (scoreAll profA [profB])).Perm
          (scoreAll profA [profB])) :=
  ⟨by decide, claim_C7 profA [profB] 1 (by decide)⟩

/-- Counterexample to claim C4: at the negative limit -1 with two
candidates, Python's slice results[:-1] keeps the first of the two
results, so the returned list is not empty. -/
theorem claim_C4_counterexample :
    (-1 : Int) ≤ 0 ∧ rank profA [profB, profE] (-1) ≠ [] := by
  decide

/-- Claim C4 as amended: for limit 0 the ranking is empty; for a
negative limit the slice drops the last -limit results, so the length
is the candidate count plus the (negative) limit, clamped at zero -
empty only when the limit is zero or at most minus the candidate
count. -/
theorem claim_C4_amended (me : Profile) (others : List Profile) (limit : Int)
    (h : limit ≤ 0) :
    (rank me others limit).length =
      if limit = 0 then 0 else ((others.length : Int) + limit).toNat := by
  have hL : (List.insertionSort scoreGe (scoreAll me others)).length = others.length := by
    rw [List.length_insertionSort, length_scoreAll]
  unfold rank pySliceTo
  rw [List.length_take, hL]
  rcases lt_or_eq_of_le h with hlt | heq
  · rw [if_neg (by omega : ¬(0 ≤ limit)), if_neg (by omega : ¬(limit = 0))]
    omega
  · subst heq
    simp

/-- Witness for the amended claim C4 at limit -1 with two
candidates. -/
theorem claim_C4_amended_witness :
    (-1 : Int) ≤ 0 ∧
      (rank profA [profB, profE] (-1)).length =
        if (-1 : Int) = 0 then 0 else ((([profB, profE] : List Profile).length : Int) + (-1)).toNat :=
  ⟨by decide, claim_C4_amended profA [profB, profE] (-1) (by decide)⟩

/-! ### Reading back what json.dumps wrote -/

theorem skipWs_cons (c : Char) (cs : List Char)
    (h : ¬(c = ' ' ∨ c = '\t' ∨ c = '\n' ∨ c = '\r')) : skipWs (c :: cs) = c :: cs := by
  unfold skipWs
  rw [if_neg h]

theorem skipWs_space (cs : List Char) : skipWs (' ' :: cs) = skipWs cs := by
  conv_lhs => rw [skipWs]
  rw [if_pos (Or.inl rfl)]

theorem parseVal_ws (fuel : Nat) (cs : List Char) :
    parseVal fuel (' ' :: cs) = parseVal fuel cs := by
  cases fuel with
  | zero => rfl
  | succ n =>
    simp only [parseVal, skipWs_space]

theorem parseElems_ws (fuel : Nat) (cs : List Char) :
    parseElems fuel (' ' :: cs) = parseElems fuel cs := by
  cases fuel with
  | zero => rfl
  | succ n =>
    simp only [parseElems, parseVal_ws]

theorem escapeChar_plain (c : Char) (h : plainChar c = true) : escapeChar c = [c] := by
  have hp : ((32 ≤ c.toNat ∧ c.toNat ≤ 126) ∧ ¬(c = '"')) ∧ ¬(c = '\\') := by
    simpa [plainChar, Bool.and_eq_true, decide_eq_true_eq] using h
  obtain ⟨⟨⟨h32, h126⟩, hq⟩, hb⟩ := hp
  have hn : ¬(c = '\n') := by rintro rfl; exact absurd h32 (by decide)
  have ht : ¬(c = '\t') := by rintro rfl; exact absurd h32 (by decide)
  have hr : ¬(c = '\r') := by rintro rfl; exact absurd h32 (by decide)
  have h8 : ¬(c = Char.ofNat 8) := by rintro rfl; exact absurd h32 (by decide)
  have h12 : ¬(c = Char.ofNat 12) := by rintro rfl; exact absurd h32 (by decide)
  have hc : ¬(c.toNat < 32 ∨ 127 ≤ c.toNat) := by omega
  unfold escapeChar
  rw [if_neg hq, if_neg hb, if_neg hn, if_neg ht, if_neg hr, if_neg h8, if_neg h12, if_neg hc]

theorem foldr_escape_plain (l : List Char) (h : l.all plainChar = true) :
    l.foldr (fun c acc => escapeChar c ++ acc) ['"'] = l ++ ['"'] := by
  induction l with
  | nil => rfl
  | cons c cs ih =>
    rw [List.all_cons, Bool.and_eq_true] at h
    rw [List.foldr_cons, ih h.2, escapeChar_plain c h.1]
    rfl

theorem dumpStrChars_plain (s : String) (h : plainStr s = true) :
    dumpStrChars s = '"' :: (s.toList ++ ['"']) := by
  unfold dumpStrChars
  rw [foldr_escape_plain s.toList h]

theorem parseStrUnits_plain (body : List Char) :
    ∀ fuel : Nat, body.all plainChar = true → body.length + 1 ≤ fuel →
      ∀ rest : List Char,
        parseStrUnits fuel (body ++ '"' :: rest) = some (body.map Char.toNat, rest) := by
  induction body with
  | nil =>
    intro fuel _ hf rest
    obtain ⟨g, rfl⟩ : ∃ g, fuel = g + 1 := ⟨fuel - 1, by omega⟩
    rfl
  | cons c cs ih =>
    intro fuel h hf rest
    rw [List.all_cons, Bool.and_eq_true] at h
    have hp : ((32 ≤ c.toNat ∧ c.toNat ≤ 126) ∧ ¬(c = '"')) ∧ ¬(c = '\\') := by
      simpa [plainChar, Bool.and_eq_true, decide_eq_true_eq] using h.1
    obtain ⟨⟨⟨h32, h126⟩, hq⟩, hb⟩ := hp
    rw [List.length_cons] at hf
    obtain ⟨g, rfl⟩ : ∃ g, fuel = g + 1 := ⟨fuel - 1, by omega⟩
    rw [List.cons_append]
    simp only [parseStrUnits]
    rw [if_neg hq, if_neg hb, if_neg (by omega : ¬(c.toNat < 32)),
      ih g h.2 (by omega) rest, List.map_cons]

theorem combineUnits_plain (body : List Char) (h : body.all plainChar = true) :
    combineUnits (body.map Char.toNat) = some body := by
  induction body with
  | nil => rfl
  | cons c cs ih =>
    rw [List.all_cons, Bool.and_eq_true] at h
    have hp : ((32 ≤ c.toNat ∧ c.toNat ≤ 126) ∧ ¬(c = '"')) ∧ ¬(c = '\\') := by
      simpa [plainChar, Bool.and_eq_true, decide_eq_true_eq] using h.1
    obtain ⟨⟨⟨h32, h126⟩, _⟩, _⟩ := hp
    rw [List.map_cons]
    unfold combineUnits
    rw [if_neg (by omega : ¬(55296 ≤ c.toNat ∧ c.toNat ≤ 56319)),
      if_neg (by omega : ¬(56320 ≤ c.toNat ∧ c.toNat ≤ 57343)), ih h.2,
      Char.ofNat_toNat]

theorem parseStrChars_plain (body : List Char) (h : body.all plainChar = true)
    (rest : List Char) : parseStrChars (body ++ '"' :: rest) = some (body, rest) := by
  unfold parseStrChars
  rw [parseStrUnits_plain body ((body ++ '"' :: rest).length + 1) h
    (by rw [List.length_append]; omega) rest]
  simp only [combineUnits_plain body h]

theorem parseVal_quote (fuel : Nat) (tail : List Char) :
    parseVal (fuel + 1) ('"' :: tail) =
      match parseStrChars tail with
      | some (body, r) => some (JVal.jstr (String.mk body), r)
      | none => none := rfl

theorem parseVal_dumpStr (fuel : Nat) (s : String) (h : plainStr s = true)
    (rest : List Char) :
    parseVal (fuel + 1) (dumpStrChars s ++ rest) = some (JVal.jstr s, rest) := by
  rw [dumpStrChars_plain s h, List.cons_append, List.append_assoc, List.singleton_append,
    parseVal_quote, parseStrChars_plain s.toList h rest]
  rfl

theorem parseElems_cons_step (fuel : Nat) (cs : List Char) (v : JVal) (rem : List Char)
    (hv : parseVal fuel cs = some (v, rem)) :
    parseElems (fuel + 1) cs =
      match skipWs rem with
      | ',' :: r =>
        (match parseElems fuel r with
          | some (vs, rem2) => some (v :: vs, rem2)
          | none => none)
      | ']' :: r => some ([v], r)
      | _ => none := by
  simp only [parseElems, hv]

theorem parseElems_dumpElems (l : List String) :
    ∀ fuel : Nat, plainList l = true → l ≠ [] → l.length + 1 ≤ fuel →
      parseElems fuel (dumpElemsChars l) = some (l.map JVal.jstr, []) := by
  induction l with
  | nil => intro fuel _ hne _; exact absurd rfl hne
  | cons s t ih =>
    intro fuel hp _ hfuel
    have hps : plainStr s = true ∧ t.all plainStr = true := by
      simpa [plainList, List.all_cons, Bool.and_eq_true] using hp
    obtain ⟨hs, ht⟩ := hps
    rw [List.length_cons] at hfuel
    obtain ⟨g, rfl⟩ : ∃ g, fuel = g + 1 + 1 := ⟨fuel - 2, by omega⟩
    cases t with
    | nil =>
      rw [show dumpElemsChars [s] = dumpStrChars s ++ [']'] from rfl,
        parseElems_cons_step (g + 1) _ (JVal.jstr s) [']']
          (parseVal_dumpStr g s hs [']'])]
      rfl
    | cons t2 ts =>
      rw [show dumpElemsChars (s :: t2 :: ts) =
            dumpStrChars s ++ ',' :: ' ' :: dumpElemsChars (t2 :: ts) from rfl,
        parseElems_cons_step (g + 1) _ (JVal.jstr s) (',' :: ' ' :: dumpElemsChars (t2 :: ts))
          (parseVal_dumpStr g s hs _)]
      rw [skipWs_cons ',' _ (by decide)]
      have hrec : parseElems (g + 1) (' ' :: dumpElemsChars (t2 :: ts)) =
          some ((t2 :: ts).map JVal.jstr, []) := by
        rw [parseElems_ws]
        exact ih (g + 1) ht (List.cons_ne_nil t2 ts)
          (by simp only [List.length_cons] at hfuel ⊢; omega)
      simp [hrec]

theorem parseVal_lbrack (fuel : Nat) (tail : List Char) :
    parseVal (fuel + 1) ('[' :: tail) =
      match skipWs tail with
      | ']' :: r => some (JVal.jarr [], r)
      | cs1 =>
        match parseElems fuel cs1 with
        | some (vs, r) => some (JVal.jarr vs, r)
        | none => none := rfl

theorem parseVal_dumpList (l : List String) (h : plainList l = true) (fuel : Nat)
    (hfuel : l.length + 1 ≤ fuel) :
    parseVal (fuel + 1) ('[' :: dumpElemsChars l) =
      some (JVal.jarr (l.map JVal.jstr), []) := by
  cases l with
  | nil => rfl
  | cons s t =>
    obtain ⟨X, hX⟩ : ∃ X, dumpElemsChars (s :: t) = '"' :: X := by
      cases t with
      | nil => exact ⟨_, rfl⟩
      | cons a b => exact ⟨_, rfl⟩
    rw [parseVal_lbrack, hX, skipWs_cons '"' X (by decide)]
    show (match parseElems fuel ('"' :: X) with
      | some (vs, r) => some (JVal.jarr vs, r)
      | none => none) = some (JVal.jarr ((s :: t).map JVal.jstr), [])
    rw [← hX, parseElems_dumpElems (s :: t) fuel h (List.cons_ne_nil s t) hfuel]

theorem one_le_length_dumpStr (s : String) : 1 ≤ (dumpStrChars s).length := by
  unfold dumpStrChars
  simp

theorem length_le_dumpElems (l : List String) : l.length ≤ (dumpElemsChars l).length := by
  induction l with
  | nil => simp [dumpElemsChars]
  | cons s t ih =>
    cases t with
    | nil =>
      simp only [dumpElemsChars, List.length_append, List.length_cons, List.length_nil]
      omega
    | cons a b =>
      have h1 := one_le_length_dumpStr s
      simp only [dumpElemsChars, List.length_append, List.length_cons] at ih ⊢
      omega

theorem jparse_dumps (l : List String) (h : plainList l = true) :
    jparse (pyJsonDumps l) = some (JVal.jarr (l.map JVal.jstr)) := by
  unfold jparse
  have hlist : (pyJsonDumps l).toList = '[' :: dumpElemsChars l := rfl
  rw [hlist]
  have hlen : ('[' :: dumpElemsChars l).length + 2 = ((dumpElemsChars l).length + 2) + 1 := by
    simp only [List.length_cons]
  rw [hlen, parseVal_dumpList l h ((dumpElemsChars l).length + 2)
    (by have := length_le_dumpElems l; omega)]
  rfl

theorem pyJsonDumps_ne_empty (l : List String) : pyJsonDumps l ≠ "" := by
  intro h
  exact List.cons_ne_nil _ _ (congrArg String.data h)

theorem textOrEmptyList_some (s : String) :
    textOrEmptyList (some s) = if s = "" then "[]" else s := rfl

theorem jparse_textOr_dumps (l : List String) (h : plainList l = true) :
    jparse (textOrEmptyList (some (pyJsonDumps l))) =
      some (JVal.jarr (l.map JVal.jstr)) := by
  rw [textOrEmptyList_some, if_neg (pyJsonDumps_ne_empty l), jparse_dumps l h]

theorem tags_setTags (u : User) (v : Option (List String))
    (h : plainList (v.getD []) = true) :
    User.tags (setTags u v) = JVal.jarr ((v.getD []).map JVal.jstr) := by
  unfold User.tags setTags
  show (match jparse (textOrEmptyList (some (pyJsonDumps (v.getD [])))) with
    | some w => w
    | none => JVal.jarr []) = JVal.jarr ((v.getD []).map JVal.jstr)
  rw [jparse_textOr_dumps (v.getD []) h]

theorem interests_setInterests (u : User) (v : Option (List String))
    (h : plainList (v.getD []) = true) :
    User.interests (setInterests u v) = JVal.jarr ((v.getD []).map JVal.jstr) := by
  unfold User.interests setInterests
  show (match jparse (textOrEmptyList (some (pyJsonDumps (v.getD [])))) with
    | some w => w
    | none => JVal.jarr []) = JVal.jarr ((v.getD []).map JVal.jstr)
  rw [jparse_textOr_dumps (v.getD []) h]

theorem tags_none (u : User) (h : u.tags_json = none) : User.tags u = JVal.jarr [] := by
  unfold User.tags
  rw [h]
  rfl

theorem interests_none (u : User) (h : u.interests_json = none) :
    User.interests u = JVal.jarr [] := by
  unfold User.interests
  rw [h]
  rfl

theorem asStringList_map_jstr : ∀ l : List String,
    asStringList (JVal.jarr (l.map JVal.jstr)) = some l
  | [] => rfl
  | s :: t => by
    have ih := asStringList_map_jstr t
    simp only [asStringList, List.map_cons, List.foldr_cons] at ih ⊢
    rw [ih]

/-! ### Claims about the stored representation of tags and interests -/

/-- Counterexample to claim C5: a profile constructed with the tag list
containing "a" twice reads back exactly that list, which is not
duplicate-free, so tags are not materialized as sets by construction
and read-back. -/
theorem claim_C5_counterexample :
    asStringList (User.tags (setTags rowBase (some ["a", "a"]))) = some ["a", "a"] ∧
      ¬(["a", "a"] : List String).Nodup := by
  exact ⟨rfl, by decide⟩

/-- Claim C5 as amended: tags and interests are never null - an absent
(None) column is read back as the empty list - but they are stored as
JSON lists that preserve the caller's duplicates and order
(deduplication and lower-casing happen only inside the similarity
computation, not at rest). -/
theorem claim_C5_amended (u : User) (v : Option (List String))
    (h : plainList (v.getD []) = true) :
    User.tags (setTags u v) = JVal.jarr ((v.getD []).map JVal.jstr) ∧
      User.interests (setInterests u v) = JVal.jarr ((v.getD []).map JVal.jstr) ∧
      User.tags { u with tags_json := none } = JVal.jarr [] ∧
      User.interests { u with interests_json := none } = JVal.jarr [] :=
  ⟨tags_setTags u v h, interests_setInterests u v h, tags_none _ rfl,
    interests_none _ rfl⟩

/-- Witness for the amended claim C5 at a concrete row and a tag list
with a repeated element. -/
theorem claim_C5_amended_witness :
    plainList ((some ["x", "y", "x"] : Option (List String)).getD []) = true ∧
      (User.tags (setTags rowBase (some ["x", "y", "x"])) =
          JVal.jarr (["x", "y", "x"].map JVal.jstr) ∧
        User.interests (setInterests rowBase (some ["x", "y", "x"])) =
          JVal.jarr (["x", "y", "x"].map JVal.jstr) ∧
        User.tags { rowBase with tags_json := none } = JVal.jarr [] ∧
        User.interests { rowBase with interests_json := none } = JVal.jarr []) :=
  ⟨by decide, claim_C5_amended rowBase (some ["x", "y", "x"]) (by decide)⟩

/-- Counterexample to claim C10: the stored text "5" is valid JSON, so
both accessors pass the parsed number through unchanged - the result
is not a list of strings. -/
theorem claim_C10_counterexample :
    User.tags row55 = JVal.jnum 5 ∧ User.interests row55 = JVal.jnum 5 ∧
      asStringList (User.tags row55) = none :=
  ⟨rfl, rfl, rfl⟩

/-- Claim C10 as amended: both the tags and the interests accessor are
total - a null or empty column and unparsable text all yield the empty
list, and any valid JSON text yields the parsed value unchanged; that
value is a string list whenever the stored text is a JSON array of
strings, but other valid JSON passes through as is, so scoring is
defined only for profiles whose stored attributes parse to arrays of
strings. -/
theorem claim_C10_amended (u : User) (s : String) (w : JVal) :
    ((u.tags_json = none → User.tags u = JVal.jarr []) ∧
      (u.interests_json = none → User.interests u = JVal.jarr [])) ∧
    ((u.tags_json = some "" → User.tags u = JVal.jarr []) ∧
      (u.interests_json = some "" → User.interests u = JVal.jarr [])) ∧
    ((u.tags_json = some s → jparse s = none → User.tags u = JVal.jarr []) ∧
      (u.interests_json = some s → jparse s = none → User.interests u = JVal.jarr [])) ∧
    ((u.tags_json = some s → s ≠ "" → jparse s = some w → User.tags u = w) ∧
      (u.interests_json = some s → s ≠ "" → jparse s = some w → User.interests u = w)) ∧
    (∀ l : List String, s ≠ "" → jparse s = some (JVal.jarr (l.map JVal.jstr)) →
      ((u.tags_json = some s → asStringList (User.tags u) = some l) ∧
        (u.interests_json = some s → asStringList (User.interests u) = some l))) := by
  refine ⟨⟨fun h => tags_none u h, fun h => interests_none u h⟩,
    ⟨?_, ?_⟩, ⟨?_, ?_⟩, ⟨?_, ?_⟩, ?_⟩
  · intro h
    unfold User.tags
    rw [h]
    rfl
  · intro h
    unfold User.interests
    rw [h]
    rfl
  · intro h hp
    unfold User.tags
    rw [h, textOrEmptyList_some]
    by_cases hs : s = ""
    · rw [if_pos hs]
      rfl
    · rw [if_neg hs, hp]
  · intro h hp
    unfold User.interests
    rw [h, textOrEmptyList_some]
    by_cases hs : s = ""
    · rw [if_pos hs]
      rfl
    · rw [if_neg hs, hp]
  · intro h hne hp
    unfold User.tags
    rw [h, textOrEmptyList_some, if_neg hne, hp]
  · intro h hne hp
    unfold User.interests
    rw [h, textOrEmptyList_some, if_neg hne, hp]
  · intro l hne hp
    constructor
    · intro h
      have ht : User.tags u = JVal.jarr (l.map JVal.jstr) := by
        unfold User.tags
        rw [h, textOrEmptyList_some, if_neg hne, hp]
      rw [ht, asStringList_map_jstr]
    · intro h
      have hi : User.interests u = JVal.jarr (l.map JVal.jstr) := by
        unfold User.interests
        rw [h, textOrEmptyList_some, if_neg hne, hp]
      rw [hi, asStringList_map_jstr]

/-- Witness for the amended claim C10 at the row whose tags and
interests columns both store the JSON numeral 5. -/
theorem claim_C10_amended_witness :
    row55.tags_json = some "5" ∧ row55.interests_json = some "5" ∧
      ("5" : String) ≠ "" ∧ jparse "5" = some (JVal.jnum 5) ∧
      User.tags row55 = JVal.jnum 5 ∧ User.interests row55 = JVal.jnum 5 :=
  ⟨rfl, rfl, by decide, rfl,
    (claim_C10_amended row55 "5" (JVal.jnum 5)).2.2.2.1.1 rfl (by decide) rfl,
    (claim_C10_amended row55 "5" (JVal.jnum 5)).2.2.2.1.2 rfl (by decide) rfl⟩
